import Mathlib

/-!
Verification of the producer/consumer signaling queue and related containers
from the embedded-cpp-studies repository.

The development shallowly embeds:
- `ThreadSafeQueue` (mutex + condition-variable signaling queue of `int`):
  `push`, `pop`, `finish`, `size`. Every public operation runs entirely under
  the queue mutex, so each is modelled as one atomic transformation of the
  queue state; a concurrent execution is a linearized list of such operations
  (an event schedule). `pop` in the source first waits for the predicate
  `!queue_.empty() || finished_`; the embedding models the post-wait body as
  the function `pop`, and the wait predicate as `popReady`, with schedules in
  which a `pop` event only fires at a state satisfying the predicate marked
  legal.
- the bounded variant (`efficient_version` with `BUFFER_SIZE`): producer
  pushes only after waiting for `buffer.size() < BUFFER_SIZE`, consumer pops
  nonempty buffers; modelled as a step relation on the shared buffer state.
- the fixed-capacity `Stack<T, MaxSize>` template, whose `push`/`pop` throw
  overflow/underflow exceptions; modelled with `Except`.
-/

/-- State of the simple signaling queue `ThreadSafeQueue`: the FIFO contents
of `std::queue<int> queue_` (front of the C++ queue = head of the list) and
the completion flag `bool finished_`. -/
structure ThreadSafeQueue where
  queue_ : List Int
  finished_ : Bool
  deriving DecidableEq

/-- `push`: under the lock, appends `item` to the back of `queue_` and
notifies one waiting consumer. Unconditional: no capacity check and no check
of `finished_`. -/
def ThreadSafeQueue.push (q : ThreadSafeQueue) (item : Int) : ThreadSafeQueue :=
  { q with queue_ := q.queue_ ++ [item] }

/-- Body of `pop` after `condition_.wait(lock, [this]{ return !queue_.empty() || finished_; })`
has returned: if the queue is nonempty, remove and return the front item with
`true`; otherwise return `false` (queue empty and producer finished). -/
def ThreadSafeQueue.pop (q : ThreadSafeQueue) : Option Int × ThreadSafeQueue :=
  match q.queue_ with
  | item :: rest => (some item, { q with queue_ := rest })
  | [] => (none, q)

/-- The wait predicate of `pop`: `!queue_.empty() || finished_`. A consumer
calling `pop` suspends exactly while this is false; when it already holds,
`pop` returns without blocking. -/
def ThreadSafeQueue.popReady (q : ThreadSafeQueue) : Bool :=
  !q.queue_.isEmpty || q.finished_

/-- `finish`: under the lock, sets `finished_ = true` and notifies all
waiting consumers. -/
def ThreadSafeQueue.finish (q : ThreadSafeQueue) : ThreadSafeQueue :=
  { q with finished_ := true }

/-- `size`: current number of stored items. -/
def ThreadSafeQueue.size (q : ThreadSafeQueue) : Nat :=
  q.queue_.length

/-- A linearized operation on the shared queue: each public method executes
atomically under `mutex_`, so a concurrent run is a list of these events. -/
inductive QueueEvent where
  | push (v : Int)
  | pop
  | finish
  deriving DecidableEq

/-- Effect of one linearized operation: the next state, and the item
returned by a `pop` with `ok = true` (`none` for a `pop` returning
`ok = false` and for the other operations). -/
def runEvent (q : ThreadSafeQueue) : QueueEvent → ThreadSafeQueue × Option Int
  | QueueEvent.push v => (q.push v, none)
  | QueueEvent.pop => ((q.pop).2, (q.pop).1)
  | QueueEvent.finish => (q.finish, none)

/-- Run a schedule of linearized operations from a state, collecting the
items returned by successful (`ok = true`) pops, in order. -/
def run (q : ThreadSafeQueue) : List QueueEvent → ThreadSafeQueue × List Int
  | [] => (q, [])
  | e :: es =>
    let step := runEvent q e
    let rest := run step.1 es
    (rest.1, step.2.toList ++ rest.2)

/-- The values pushed by a schedule, in linearization order. -/
def pushValues : List QueueEvent → List Int
  | [] => []
  | QueueEvent.push v :: es => v :: pushValues es
  | QueueEvent.pop :: es => pushValues es
  | QueueEvent.finish :: es => pushValues es

/-- A schedule is legal when every `pop` event fires at a state where the
wait predicate `popReady` holds: a consumer whose predicate is false is still
suspended in `condition_.wait` and its `pop` has not completed, so it cannot
appear at that point of the linearization. -/
def legalSchedule (q : ThreadSafeQueue) : List QueueEvent → Bool
  | [] => true
  | e :: es =>
    (match e with
     | QueueEvent.pop => q.popReady
     | _ => true) && legalSchedule (runEvent q e).1 es

/-- The queue as constructed: empty, not finished. -/
def emptyQueue : ThreadSafeQueue :=
  { queue_ := [], finished_ := false }

/-- The sequence `[1, 2, ..., n]` pushed by the single producer. -/
def oneToN (n : Nat) : List Int :=
  (List.range n).map (fun i => (i : Int) + 1)

/-- Repeatedly call `pop`, collecting items while `ok = true`, stopping at
the first `ok = false`; `fuel` bounds the number of calls. -/
def drainFuel : Nat → ThreadSafeQueue → List Int
  | 0, _ => []
  | n + 1, q =>
    match q.pop with
    | (some x, q1) => x :: drainFuel n q1
    | (none, _) => []

/-- Drain the queue by repeated `pop` calls (enough calls to empty it). -/
def drain (q : ThreadSafeQueue) : List Int :=
  drainFuel q.queue_.length q

/-- Capacity constant of the bounded variant (`const int BUFFER_SIZE = 10`). -/
def BUFFER_SIZE : Nat := 10

/-- Shared state of the bounded variant (`efficient_version`): the buffer
`std::queue<int> buffer` and the flag `bool producer_done`. -/
structure BoundedBuffer where
  buffer : List Int
  producer_done : Bool
  deriving DecidableEq

/-- Atomic transitions of the bounded variant, each taken under
`buffer_mutex`:
- the producer pushes only after `buffer_not_full.wait(lock, []{ return buffer.size() < BUFFER_SIZE; })`,
  so a push step requires `buffer.length < BUFFER_SIZE`;
- the consumer, woken with `!buffer.empty() || producer_done`, removes the
  front item when the buffer is nonempty;
- the producer sets `producer_done = true` after its last push. -/
inductive BStep : BoundedBuffer → BoundedBuffer → Prop where
  | push (s : BoundedBuffer) (v : Int) (h : s.buffer.length < BUFFER_SIZE) :
      BStep s { s with buffer := s.buffer ++ [v] }
  | pop (s : BoundedBuffer) (h : s.buffer ≠ []) :
      BStep s { s with buffer := s.buffer.tail }
  | done (s : BoundedBuffer) :
      BStep s { s with producer_done := true }

/-- The buffer as constructed: empty, producer not done. -/
def initBuffer : BoundedBuffer :=
  { buffer := [], producer_done := false }

/-- States reachable from the initial buffer by any producer/consumer
schedule. -/
def BReachable (s : BoundedBuffer) : Prop :=
  Relation.ReflTransGen BStep initBuffer s

/-- Errors thrown by the fixed-capacity stack: `std::overflow_error` from
`push`, `std::underflow_error` from `pop`. -/
inductive StackError where
  | overflow
  | underflow
  deriving DecidableEq

/-- `Stack<T, MaxSize>::push`: throws overflow when `top_index >= MaxSize`,
otherwise stores `value` at `data[top_index++]`. The list holds
`data[0 .. top_index)`, so storing at `top_index` appends at the end. -/
def Stack.push (MaxSize : Nat) (data : List Int) (value : Int) :
    Except StackError (List Int) :=
  if MaxSize ≤ data.length then Except.error StackError.overflow
  else Except.ok (data ++ [value])

/-- `Stack<T, MaxSize>::pop`: throws underflow when empty, otherwise returns
`data[--top_index]` — the last stored element — and decrements `top_index`,
removing it. -/
def Stack.pop (data : List Int) : Except StackError (Int × List Int) :=
  if h : data = [] then Except.error StackError.underflow
  else Except.ok (data.getLast h, data.dropLast)

/-- Linearization invariant of the signaling queue: over any schedule, the
items returned by successful pops followed by the items still stored equal
the initial contents followed by the pushed values, in order. -/
theorem run_queue_inv (σ : List QueueEvent) :
    ∀ q : ThreadSafeQueue,
      (run q σ).2 ++ (run q σ).1.queue_ = q.queue_ ++ pushValues σ := by
  induction σ with
  | nil => intro q; simp [run, pushValues]
  | cons e es ih =>
    intro q
    cases e with
    | push v =>
      simp [run, runEvent, ThreadSafeQueue.push, pushValues, ih]
    | pop =>
      cases hq : q.queue_ with
      | nil =>
        simp [run, runEvent, ThreadSafeQueue.pop, hq, pushValues, ih]
      | cons x xs =>
        simp [run, runEvent, ThreadSafeQueue.pop, hq, pushValues, ih]
    | finish =>
      simp [run, runEvent, ThreadSafeQueue.finish, pushValues, ih]

/-- Draining a finished queue by repeated `pop` calls returns exactly the
stored items, in order, each with `ok = true`, provided the fuel covers the
queue length. -/
theorem drainFuel_eq_queue (l : List Int) :
    ∀ (n : Nat) (b : Bool), l.length ≤ n → drainFuel n ⟨l, b⟩ = l := by
  induction l with
  | nil =>
    intro n b _
    cases n with
    | zero => rfl
    | succ m => simp [drainFuel, ThreadSafeQueue.pop]
  | cons x xs ih =>
    intro n b h
    cases n with
    | zero => simp at h
    | succ m =>
      simp only [drainFuel, ThreadSafeQueue.pop]
      simpa using ih m b (by simpa using h)

/-- C1: for a single producer pushing the sequence `[1, 2, ..., N]` into the
signaling queue and a single consumer repeatedly calling `pop` until the
queue is drained, the items popped with `ok = true` are exactly
`[1, 2, ..., N]` in that order; moreover each successful `pop` removes and
returns the front item of the queue. -/
theorem fifo_single_producer (N : Nat) (σ : List QueueEvent)
    (q : ThreadSafeQueue) (x : Int) (xs : List Int)
    (hpush : pushValues σ = oneToN N)
    (_hlegal : legalSchedule emptyQueue σ = true)
    (hdrain : (run emptyQueue σ).1.queue_ = [])
    (hq : q.queue_ = x :: xs) :
    (run emptyQueue σ).2 = oneToN N ∧
      q.pop = (some x, { q with queue_ := xs }) := by
  constructor
  · have h := run_queue_inv σ emptyQueue
    rw [hdrain, hpush] at h
    simpa [emptyQueue] using h
  · simp [ThreadSafeQueue.pop, hq]

/-- Schedule for the C1 witness: pushes of `1, 2, 3` interleaved with pops,
then `finish` and a drain. -/
def fifoWitnessSchedule : List QueueEvent :=
  [QueueEvent.push 1, QueueEvent.pop, QueueEvent.push 2, QueueEvent.push 3,
   QueueEvent.finish, QueueEvent.pop, QueueEvent.pop, QueueEvent.pop]

/-- Witness for C1 at `N = 3` and a concrete interleaving. -/
theorem fifo_single_producer_witness :
    (pushValues fifoWitnessSchedule = oneToN 3 ∧
        legalSchedule emptyQueue fifoWitnessSchedule = true ∧
        (run emptyQueue fifoWitnessSchedule).1.queue_ = [] ∧
        ({ queue_ := [5, 7], finished_ := false } : ThreadSafeQueue).queue_ = 5 :: [7]) ∧
      (run emptyQueue fifoWitnessSchedule).2 = oneToN 3 ∧
        ThreadSafeQueue.pop { queue_ := [5, 7], finished_ := false } =
          (some 5, { queue_ := [7], finished_ := false }) :=
  ⟨⟨by decide, by decide, by decide, by decide⟩,
    fifo_single_producer 3 fifoWitnessSchedule
      { queue_ := [5, 7], finished_ := false } 5 [7]
      (by decide) (by decide) (by decide) (by decide)⟩

/-- C2: for any legal interleaving pushing a combined total of `N` items in
which the consumers drain the queue, the multiset of items returned by
successful pops equals the multiset of pushed items: `N` items, none lost,
none duplicated. -/
theorem no_loss_no_duplication (N : Nat) (σ : List QueueEvent)
    (hN : (pushValues σ).length = N)
    (_hlegal : legalSchedule emptyQueue σ = true)
    (hdrain : (run emptyQueue σ).1.queue_ = []) :
    Multiset.ofList (run emptyQueue σ).2 = Multiset.ofList (pushValues σ) ∧
      (run emptyQueue σ).2.length = N := by
  have he : emptyQueue.queue_ = [] := rfl
  have h := run_queue_inv σ emptyQueue
  rw [hdrain, he] at h
  simp only [List.append_nil, List.nil_append] at h
  rw [h, hN]
  exact ⟨rfl, rfl⟩

/-- Schedule for the C2 witness: two interleaved producers pushing a total
of three items (with a repeated value), consumers draining to `ok = false`. -/
def drainWitnessSchedule : List QueueEvent :=
  [QueueEvent.push 10, QueueEvent.push 20, QueueEvent.pop, QueueEvent.push 10,
   QueueEvent.pop, QueueEvent.finish, QueueEvent.pop, QueueEvent.pop]

/-- Witness for C2 at `N = 3` and a concrete interleaving. -/
theorem no_loss_no_duplication_witness :
    ((pushValues drainWitnessSchedule).length = 3 ∧
        legalSchedule emptyQueue drainWitnessSchedule = true ∧
        (run emptyQueue drainWitnessSchedule).1.queue_ = []) ∧
      Multiset.ofList (run emptyQueue drainWitnessSchedule).2 =
          Multiset.ofList (pushValues drainWitnessSchedule) ∧
        (run emptyQueue drainWitnessSchedule).2.length = 3 :=
  ⟨⟨by decide, by decide, by decide⟩,
    no_loss_no_duplication 3 drainWitnessSchedule (by decide) (by decide) (by decide)⟩

/-- C3: in the DRAINED state (`finished_ = true`, queue empty), `pop`
returns `ok = false` with the state unchanged, the wait predicate already
holds (so the call does not block), and a further `pop` on the resulting
state again returns `ok = false`. -/
theorem drained_terminal (q : ThreadSafeQueue)
    (hfin : q.finished_ = true) (hemp : q.queue_ = []) :
    q.pop = (none, q) ∧ q.popReady = true ∧ ((q.pop).2).pop = (none, q) := by
  have h1 : q.pop = (none, q) := by simp [ThreadSafeQueue.pop, hemp]
  refine ⟨h1, ?_, ?_⟩
  · simp [ThreadSafeQueue.popReady, hemp, hfin]
  · rw [h1]
    exact h1

/-- Witness for C3 at the concrete drained state. -/
theorem drained_terminal_witness :
    (({ queue_ := [], finished_ := true } : ThreadSafeQueue).finished_ = true ∧
        ({ queue_ := [], finished_ := true } : ThreadSafeQueue).queue_ = []) ∧
      ThreadSafeQueue.pop { queue_ := [], finished_ := true } =
          (none, { queue_ := [], finished_ := true }) ∧
        ThreadSafeQueue.popReady { queue_ := [], finished_ := true } = true ∧
        ((ThreadSafeQueue.pop { queue_ := [], finished_ := true }).2).pop =
          (none, { queue_ := [], finished_ := true }) :=
  ⟨⟨by decide, by decide⟩,
    drained_terminal { queue_ := [], finished_ := true } (by decide) (by decide)⟩

/-- C6: `finish` is idempotent — calling it twice yields the same state as
calling it once, and hence every subsequent schedule observes identical
results. -/
theorem finish_idempotent (q : ThreadSafeQueue) (σ : List QueueEvent) :
    ((q.finish).finish = q.finish) ∧
      run ((q.finish).finish) σ = run (q.finish) σ :=
  ⟨rfl, rfl⟩

/-- C8: `push` is total and unconditional — for every state (any contents,
finished or not) it appends the item at the back and leaves the flag
unchanged; no blocking, no error. -/
theorem push_unconditional (q : ThreadSafeQueue) (v : Int) :
    q.push v = { queue_ := q.queue_ ++ [v], finished_ := q.finished_ } :=
  rfl

/-- C9: `finish` modifies only the flag — the stored items are unchanged,
and draining the finished queue by repeated `pop` calls returns every item
pushed before `finish`, in FIFO order, each with `ok = true`. -/
theorem finish_frame (q : ThreadSafeQueue) :
    (q.finish).queue_ = q.queue_ ∧ drain (q.finish) = q.queue_ :=
  ⟨rfl, drainFuel_eq_queue q.queue_ q.queue_.length true (le_refl _)⟩

/-- C4: in the bounded variant, the capacity invariant
`buffer.length ≤ BUFFER_SIZE` holds in every reachable state: a producer
step is enabled only when the buffer is strictly below capacity (it blocks
otherwise), so no schedule can grow the buffer past `BUFFER_SIZE`. -/
theorem bounded_capacity_invariant (s : BoundedBuffer) (h : BReachable s) :
    s.buffer.length ≤ BUFFER_SIZE := by
  induction h with
  | refl => simp [initBuffer]
  | tail _ hstep ih =>
    cases hstep with
    | push v hlt =>
      simp only [List.length_append, List.length_cons, List.length_nil]
      omega
    | pop hne =>
      simp only [List.length_tail]
      omega
    | done => exact ih

/-- Witness for C4 at a concrete reachable state (one item pushed). -/
theorem bounded_capacity_invariant_witness :
    BReachable { buffer := [5], producer_done := false } ∧
      ({ buffer := [5], producer_done := false } : BoundedBuffer).buffer.length ≤
        BUFFER_SIZE := by
  have hreach : BReachable { buffer := [5], producer_done := false } :=
    Relation.ReflTransGen.single (BStep.push initBuffer 5 (by decide))
  exact ⟨hreach, bounded_capacity_invariant _ hreach⟩

/-- Once no pushes occur, running any schedule can only remove items from
the front, so the final contents are a suffix of the initial contents. -/
theorem run_no_push_suffix (σ : List QueueEvent) :
    ∀ q : ThreadSafeQueue, pushValues σ = [] →
      (run q σ).1.queue_ <:+ q.queue_ := by
  induction σ with
  | nil => intro q _; exact List.suffix_refl _
  | cons e es ih =>
    intro q hp
    cases e with
    | push v => simp [pushValues] at hp
    | pop =>
      have hp2 : pushValues es = [] := hp
      obtain ⟨l, b⟩ := q
      cases l with
      | nil =>
        have h1 := ih ⟨[], b⟩ hp2
        simpa [run, runEvent, ThreadSafeQueue.pop] using h1
      | cons x xs =>
        have h1 := ih ⟨xs, b⟩ hp2
        have h2 : (run ⟨x :: xs, b⟩ (QueueEvent.pop :: es)).1 = (run ⟨xs, b⟩ es).1 := by
          simp [run, runEvent, ThreadSafeQueue.pop]
        rw [h2]
        exact h1.trans (List.suffix_cons x xs)
    | finish =>
      have hp2 : pushValues es = [] := hp
      exact ih ((runEvent q QueueEvent.finish).1) hp2

/-- C5: under the API contract (no push events after `finish`), once the
queue is closed no operation ever appends an item — the contents only
shrink, ending as a suffix of what was there; and the queue performs no
runtime check against misuse: `push` on a closed queue still appends. -/
theorem closed_no_append (q : ThreadSafeQueue) (σ : List QueueEvent) (v : Int)
    (_hfin : q.finished_ = true)
    (hcontract : pushValues σ = []) :
    (run q σ).1.queue_ <:+ q.queue_ ∧
      (q.push v).queue_ = q.queue_ ++ [v] :=
  ⟨run_no_push_suffix σ q hcontract, rfl⟩

/-- Witness for C5 at a concrete closed queue and push-free schedule. -/
theorem closed_no_append_witness :
    (({ queue_ := [3, 4], finished_ := true } : ThreadSafeQueue).finished_ = true ∧
        pushValues [QueueEvent.pop, QueueEvent.finish, QueueEvent.pop, QueueEvent.pop] = []) ∧
      (run { queue_ := [3, 4], finished_ := true }
            [QueueEvent.pop, QueueEvent.finish, QueueEvent.pop, QueueEvent.pop]).1.queue_ <:+
          ({ queue_ := [3, 4], finished_ := true } : ThreadSafeQueue).queue_ ∧
        (ThreadSafeQueue.push { queue_ := [3, 4], finished_ := true } 9).queue_ =
          [3, 4] ++ [9] :=
  ⟨⟨by decide, by decide⟩,
    closed_no_append { queue_ := [3, 4], finished_ := true }
      [QueueEvent.pop, QueueEvent.finish, QueueEvent.pop, QueueEvent.pop] 9
      (by decide) (by decide)⟩

/-- C7: the fixed-capacity stack signals overflow and underflow by errors:
for a stack holding at most `MaxSize` elements, `push` fails with overflow
exactly when the stack holds `MaxSize` elements and otherwise appends the
value on top; `pop` fails with underflow exactly when the stack is empty and
otherwise removes and returns the most recently pushed element. -/
theorem stack_overflow_underflow (MaxSize : Nat) (data : List Int) (value : Int)
    (hinv : data.length ≤ MaxSize) :
    (Stack.push MaxSize data value = Except.error StackError.overflow ↔
        data.length = MaxSize) ∧
      (data.length < MaxSize →
        Stack.push MaxSize data value = Except.ok (data ++ [value])) ∧
      (Stack.pop data = Except.error StackError.underflow ↔ data = []) ∧
      (data.length < MaxSize →
        Stack.pop (data ++ [value]) = Except.ok (value, data)) := by
  refine ⟨?_, ?_, ?_, ?_⟩
  · unfold Stack.push
    by_cases hle : MaxSize ≤ data.length
    · simp only [hle, if_true]
      simp
      omega
    · simp only [hle, if_false]
      simp
      omega
  · intro hlt
    unfold Stack.push
    simp [Nat.not_le.mpr hlt]
  · unfold Stack.pop
    by_cases hd : data = []
    · simp [hd]
    · simp [hd]
  · intro _
    unfold Stack.pop
    simp

/-- Witness for C7 at `MaxSize = 2` and the one-element stack `[7]`. -/
theorem stack_overflow_underflow_witness :
    ([7] : List Int).length ≤ 2 ∧
      ((Stack.push 2 [7] 9 = Except.error StackError.overflow ↔
          ([7] : List Int).length = 2) ∧
        (([7] : List Int).length < 2 → Stack.push 2 [7] 9 = Except.ok ([7] ++ [9])) ∧
        (Stack.pop [7] = Except.error StackError.underflow ↔ ([7] : List Int) = []) ∧
        (([7] : List Int).length < 2 → Stack.pop ([7] ++ [9]) = Except.ok (9, [7]))) :=
  ⟨by decide, stack_overflow_underflow 2 [7] 9 (by decide)⟩
